import Mathlib

/-!
Shallow embedding of `portcode.py` (PortCodeHandler / PortCodePinger).

Time (monotonic clock readings and durations) is modelled by rationals.
Codes are natural numbers; the serial device and stdout are modelled by a
trace of `SinkEvent`s.  The bounded `queue.Queue` is a `List Task` with
capacity `maxsize`; `put_nowait` returns `none` when the `queue.Full`
exception is raised.  The blocking drain loop inside `flush` is modelled
with an explicit iteration bound (`fuel`) and a schedule `clock : ℕ → ℚ`
giving the monotonic time observed at each loop iteration.
-/

namespace Portcode

/-- The `BitSet` namedtuple (line 96): `time_started` is `None` or a
monotonic timestamp, `code` the integer code. -/
structure BitSet where
  time_started : Option ℚ
  code : Nat
  deriving DecidableEq, Repr

/-- Items travelling through `queue.Queue`: an integer code (`0` doubles
as the zero-reset task, lines 153-155) or the string `"quit"`. -/
inductive Task where
  | num (n : Nat)
  | quit
  deriving DecidableEq, Repr

/-- Observable actions on the serial device or stdout. -/
inductive SinkEvent where
  | write (b : Nat)
  | flushDevice
  | sleep (d : ℚ)
  | emulatePrint (b : Nat)
  deriving DecidableEq, Repr

/-- The constant `self.SYNC_TIME = 0.01` seconds (line 93). -/
def SYNC_TIME : ℚ := 1 / 100

/-- The capacity from `queue.Queue(maxsize=10)` (line 32). -/
def maxsize : Nat := 10

/-- Python `queue.put_nowait(t)`: appends when below capacity, otherwise
raises `queue.Full`, modelled by `none`. -/
def put_nowait (q : List Task) (t : Task) : Option (List Task) :=
  if q.length < maxsize then some (q ++ [t]) else none

/-- The worker helper `get_code` (lines 99-103): `num = 0`, then
`num |= i.code` over the active set. -/
def get_code (current_codes : List BitSet) : Nat :=
  current_codes.foldl (fun num i => num ||| i.code) 0

/-- The worker helper `send_code` (lines 105-110): with a serial device,
write the byte then flush; otherwise print the emulation line. -/
def send_code (hasSer : Bool) (code : Nat) : List SinkEvent :=
  if hasSer then [SinkEvent.write code, SinkEvent.flushDevice]
  else [SinkEvent.emulatePrint code]

/-- The worker helper `update_codes` (lines 112-123), with the settle
duration `sync` (the pinger attribute `self.SYNC_TIME`) and the monotonic
reading `timenow` as parameters.  Line 118 calls `time.monotonic()` a
second time when stamping; both calls happen inside the same invocation
and are modelled by the same reading `timenow`. -/
def update_codes (sync timenow : ℚ) (current_codes : List BitSet) : List BitSet :=
  current_codes.foldl
    (fun new_codes i =>
      match i.time_started with
      | none => new_codes ++ [⟨some timenow, i.code⟩]
      | some t => if timenow - t < sync then new_codes ++ [i] else new_codes)
    []

/-- The spec contract for one entry of `expire` (section 4.2): an
unstamped entry is stamped with `now` and retained; a stamped entry is
retained exactly when `now - t < settle`, otherwise dropped.  This is the
spec-side definition, to be compared with `update_codes`. -/
def expireSpec (settle now : ℚ) (i : BitSet) : Option BitSet :=
  match i.time_started with
  | none => some ⟨some now, i.code⟩
  | some t => if now - t < settle then some i else none

/-- The spec-side merge contract (section 4.1): bitwise OR of every active
code's value, `0` for the empty set. -/
def mergeSpec (cs : List BitSet) : Nat :=
  (cs.map BitSet.code).foldr (fun a b => a ||| b) 0

/-- The `while len(current_codes) > 0` drain loop inside `flush`
(lines 126-129): iteration number `k` calls `update_codes` at monotonic
time `clock k`; `fuel` bounds how many iterations are modelled (the real
loop blocks until the set is empty). -/
def drainFrom (sync : ℚ) (clock : ℕ → ℚ) : ℕ → ℕ → List BitSet → List BitSet
  | _, 0, cs => cs
  | k, fuel + 1, cs =>
      if cs = [] then []
      else drainFrom sync clock (k + 1) fuel (update_codes sync (clock k) cs)

/-- The worker helper `flush` (lines 125-134): drain the active set, then,
only when a serial device is present, write 0, flush the device and sleep
for the settle time.  In emulate mode (`hasSer = false`) nothing at all is
emitted after the drain. -/
def flush (sync : ℚ) (hasSer : Bool) (clock : ℕ → ℚ) (fuel : ℕ) (cs : List BitSet) :
    List BitSet × List SinkEvent :=
  (drainFrom sync clock 0 fuel cs,
   if hasSer then [SinkEvent.write 0, SinkEvent.flushDevice, SinkEvent.sleep sync]
   else [])

/-- The worker loop's mutable state: `current_codes` (line 97) and
`current_code`, the last byte written by the dispatch (line 137). -/
structure WorkerState where
  current_codes : List BitSet
  current_code : Nat
  deriving DecidableEq, Repr

/-- The state at the top of the `while True` loop (lines 136-138): the
initial `flush` ran on an empty list and `current_code = 0`. -/
def initState : WorkerState := ⟨[], 0⟩

/-- Result of one iteration body: continue with a new state and trace, or
return from `run` (the `"quit"` branch, lines 150-152). -/
inductive StepResult where
  | next (s : WorkerState) (events : List SinkEvent)
  | terminated (events : List SinkEvent)
  deriving DecidableEq, Repr

/-- Body of one `while True` iteration once the task is known
(lines 149-163).  On `"quit"`: flush and return.  On task `0`: flush first
(line 154); the assignment `new_code = 0` at line 155 is dead, overwritten
at line 159; the fall-through at lines 156-157 still appends
`BitSet(None, 0)`.  Every non-quit path then recomputes the merged value,
writes it only when it differs from `current_code` (lines 159-162), and
runs one `update_codes` at time `now` (line 163). -/
def runStep (sync : ℚ) (hasSer : Bool) (clock : ℕ → ℚ) (fuel : ℕ) (now : ℚ)
    (task : Option Task) (s : WorkerState) : StepResult :=
  match task with
  | some Task.quit =>
      StepResult.terminated (flush sync hasSer clock fuel s.current_codes).2
  | some (Task.num n) =>
      let fl :=
        if n = 0 then flush sync hasSer clock fuel s.current_codes
        else (s.current_codes, [])
      let codes := fl.1 ++ [⟨none, n⟩]
      let new_code := get_code codes
      if new_code ≠ s.current_code then
        StepResult.next ⟨update_codes sync now codes, new_code⟩
          (fl.2 ++ send_code hasSer new_code)
      else
        StepResult.next ⟨update_codes sync now codes, s.current_code⟩ fl.2
  | none =>
      let new_code := get_code s.current_codes
      if new_code ≠ s.current_code then
        StepResult.next ⟨update_codes sync now s.current_codes, new_code⟩
          (send_code hasSer new_code)
      else
        StepResult.next ⟨update_codes sync now s.current_codes, s.current_code⟩ []

/-- Lines 140-148: how the task is obtained.  Empty active set: the
blocking `queue.get()` (line 143), modelled as `none` when the queue is
empty (the worker blocks and no iteration happens).  Non-empty active set:
the `queue.empty()` check followed by `get_nowait` (lines 145-148), which
never blocks. -/
def acquireTask (current_codes : List BitSet) (q : List Task) :
    Option (Option Task × List Task) :=
  if current_codes.length = 0 then
    match q with
    | [] => none
    | t :: ts => some (some t, ts)
  else
    match q with
    | [] => some (none, [])
    | t :: ts => some (some t, ts)

/-- Whether lines 140-148 invoke the blocking `queue.get()` (line 143)
rather than the non-blocking empty-check path. -/
def usesBlockingGet (current_codes : List BitSet) : Bool :=
  current_codes.length = 0

/-- One full iteration of the worker loop (lines 140-163). -/
def loopIter (sync : ℚ) (hasSer : Bool) (clock : ℕ → ℚ) (fuel : ℕ) (now : ℚ)
    (s : WorkerState) (q : List Task) : Option (StepResult × List Task) :=
  match acquireTask s.current_codes q with
  | none => none
  | some (task, qrest) => some (runStep sync hasSer clock fuel now task s, qrest)

/-- Outcome of `PortCodeHandler.close` (lines 52-59): `put_nowait("quit")`
first; when that raises `queue.Full`, the `worker.join()` and the serial
`close()` are never reached. -/
structure CloseOutcome where
  raisedQueueFull : Bool
  quitEnqueued : Bool
  workerJoined : Bool
  serReleased : Bool
  queue : List Task
  deriving DecidableEq, Repr

/-- The handler method `close` (lines 52-59). -/
def close (hasSer : Bool) (q : List Task) : CloseOutcome :=
  match put_nowait q Task.quit with
  | some qq => ⟨false, true, true, hasSer, qq⟩
  | none => ⟨true, false, false, false, q⟩

/-- Python `int(code)` on a numeric argument: truncation toward zero. -/
def pyInt (q : ℚ) : ℤ := if 0 ≤ q then ⌊q⌋ else ⌈q⌉

/-- Outcome of `send_portcode` as seen by the caller. -/
inductive SendOutcome where
  | ok (queue : List Task)
  | rangeError (afterClose : CloseOutcome)
  | queueFull (raisedInsideClose : Bool)
  deriving DecidableEq, Repr

/-- The handler method `send_portcode` (lines 61-78): `code = int(code)`;
an out-of-range value runs `self.close()` (whose own `put_nowait` may
raise `queue.Full` first, in which case the `ValueError` is never
reached) and then raises `ValueError`; an in-range value is enqueued with
`put_nowait`, which may raise `queue.Full`. -/
def send_portcode (hasSer : Bool) (q : List Task) (codeArg : ℚ) : SendOutcome :=
  let code := pyInt codeArg
  if 0 ≤ code ∧ code ≤ 255 then
    match put_nowait q (Task.num code.toNat) with
    | some qq => SendOutcome.ok qq
    | none => SendOutcome.queueFull false
  else
    let co := close hasSer q
    if co.raisedQueueFull then SendOutcome.queueFull true
    else SendOutcome.rangeError co

/-- The handler method `clear` (lines 80-85): `put_nowait(0)`. -/
def clear (q : List Task) : Option (List Task) :=
  put_nowait q (Task.num 0)

/-- A queue filled to capacity. -/
def fullQueue : List Task := List.replicate 10 (Task.num 1)

/-! ## Helper lemmas -/

lemma update_codes_foldl (sync now : ℚ) (cs : List BitSet) (acc : List BitSet) :
    cs.foldl
      (fun new_codes i =>
        match i.time_started with
        | none => new_codes ++ [⟨some now, i.code⟩]
        | some t => if now - t < sync then new_codes ++ [i] else new_codes)
      acc
      = acc ++ cs.filterMap (expireSpec sync now) := by
  induction cs generalizing acc with
  | nil => simp
  | cons i cs ih =>
      cases h : i.time_started with
      | none =>
          simp [List.foldl_cons, h, ih, expireSpec, List.filterMap_cons]
      | some t =>
          by_cases hd : now - t < sync <;>
            simp [List.foldl_cons, h, hd, ih, expireSpec, List.filterMap_cons,
              List.append_assoc]

lemma update_codes_eq (sync now : ℚ) (cs : List BitSet) :
    update_codes sync now cs = cs.filterMap (expireSpec sync now) := by
  unfold update_codes
  simpa using update_codes_foldl sync now cs []

lemma get_code_foldl (cs : List BitSet) (acc : Nat) :
    cs.foldl (fun num i => num ||| i.code) acc = acc ||| mergeSpec cs := by
  induction cs generalizing acc with
  | nil => simp [mergeSpec]
  | cons i cs ih => simp [mergeSpec, List.foldl_cons, ih, Nat.or_assoc]

lemma get_code_eq (cs : List BitSet) : get_code cs = mergeSpec cs := by
  unfold get_code
  simpa using get_code_foldl cs 0

lemma drainFrom_nil (sync : ℚ) (clock : ℕ → ℚ) (k fuel : ℕ) :
    drainFrom sync clock k fuel [] = [] := by
  cases fuel <;> simp [drainFrom]

/-- After `update_codes` at time `now`, every surviving entry is stamped
with a time at most `now`, provided every previously stamped entry was. -/
lemma update_codes_stamped (sync now : ℚ) (cs : List BitSet)
    (h : ∀ i ∈ cs, ∀ t, i.time_started = some t → t ≤ now) :
    ∀ j ∈ update_codes sync now cs, ∃ u, j.time_started = some u ∧ u ≤ now := by
  intro j hj
  rw [update_codes_eq] at hj
  rcases List.mem_filterMap.mp hj with ⟨a, ha, hfa⟩
  cases hta : a.time_started with
  | none =>
      refine ⟨now, ?_, le_refl now⟩
      simp [expireSpec, hta] at hfa
      rw [← hfa]
  | some t =>
      by_cases hd : now - t < sync
      · simp [expireSpec, hta, hd] at hfa
        exact ⟨t, by rw [← hfa]; exact hta, h a ha t hta⟩
      · simp [expireSpec, hta, hd] at hfa

/-- Once every entry is stamped no later than `c0`, an `update_codes` at
any time `c1` with `c0 + sync ≤ c1` drops every entry. -/
lemma update_codes_expires_all (sync c0 c1 : ℚ) (cs : List BitSet)
    (h : ∀ j ∈ cs, ∃ u, j.time_started = some u ∧ u ≤ c0)
    (hc : c0 + sync ≤ c1) :
    update_codes sync c1 cs = [] := by
  rw [update_codes_eq, List.filterMap_eq_nil_iff]
  intro a ha
  rcases h a ha with ⟨u, hu, hule⟩
  have : ¬ c1 - u < sync := by linarith
  simp [expireSpec, hu, this]

lemma pyInt_intCast (n : ℤ) : pyInt (n : ℚ) = n := by
  unfold pyInt
  split <;> simp

/-- Event trace of a non-flushing iteration (no task, or a nonzero-code
task): either empty or a `send_code` of a merged value that differs from
the last written byte. -/
lemma runStep_nonflush_events (sync : ℚ) (hasSer : Bool) (clock : ℕ → ℚ)
    (fuel : ℕ) (now : ℚ) (task : Option Task) (s : WorkerState)
    (h : task = none ∨ ∃ n, n ≠ 0 ∧ task = some (Task.num n))
    (s2 : WorkerState) (evs : List SinkEvent)
    (hstep : runStep sync hasSer clock fuel now task s = StepResult.next s2 evs) :
    evs = [] ∨ ∃ nc, nc ≠ s.current_code ∧ evs = send_code hasSer nc := by
  rcases h with h | ⟨n, hn, h⟩ <;> subst h
  · simp only [runStep] at hstep
    split at hstep
    case isTrue hne =>
      injection hstep with h1 h2
      exact Or.inr ⟨get_code s.current_codes, hne, h2.symm⟩
    case isFalse hne =>
      injection hstep with h1 h2
      exact Or.inl h2.symm
  · simp only [runStep] at hstep
    rw [if_neg hn] at hstep
    split at hstep
    case isTrue hne =>
      injection hstep with h1 h2
      refine Or.inr ⟨get_code (s.current_codes ++ [⟨none, n⟩]), hne, ?_⟩
      rw [← h2]
      simp
    case isFalse hne =>
      injection hstep with h1 h2
      rw [← h2]
      exact Or.inl rfl

/-! ## Claim theorems -/

/-- Claim C1: the merge function `get_code` returns the bitwise OR of
every active code's value (the spec contract `mergeSpec`); the empty
active set merges to 0; and for two simultaneously active codes `c1` and
`c2` the merged value is `c1 ||| c2`, their bitwise OR (not their sum).
`get_code` is a pure Lean function of the active set alone. -/
theorem get_code_spec :
    get_code [] = 0 ∧
    (∀ cs : List BitSet, get_code cs = mergeSpec cs) ∧
    (∀ (t1 t2 : Option ℚ) (c1 c2 : Nat),
      get_code [⟨t1, c1⟩, ⟨t2, c2⟩] = c1 ||| c2) := by
  refine ⟨rfl, get_code_eq, ?_⟩
  intro t1 t2 c1 c2
  simp [get_code_eq, mergeSpec]

/-- Claim C2: one call of `update_codes` with settle duration `settle` and
current time `now` acts entrywise as the spec's expire contract
(`expireSpec`): it stamps each entry whose `time_started` is `None` with
the current time and retains it, retains each entry stamped at `t` exactly
when `now - t < settle`, and drops every other entry. -/
theorem update_codes_spec (settle now : ℚ) (cs : List BitSet) :
    update_codes settle now cs = cs.filterMap (expireSpec settle now) ∧
    (∀ c : Nat, update_codes settle now [⟨none, c⟩] = [⟨some now, c⟩]) ∧
    (∀ (t : ℚ) (c : Nat),
      update_codes settle now [⟨some t, c⟩]
        = if now - t < settle then [⟨some t, c⟩] else []) := by
  refine ⟨update_codes_eq settle now cs, ?_, ?_⟩
  · intro c
    simp [update_codes_eq, expireSpec]
  · intro t c
    by_cases hd : now - t < settle <;> simp [update_codes_eq, expireSpec, hd]

/-- Claim C3 counterexample: from the reachable idle state (active set
empty, last written byte 0 after the startup flush), the very first loop
iteration on a zero-reset task makes the sink receive a write+flush of
byte 0 — equal to the current wire value `initState.current_code` — because
the flush path writes 0 unconditionally when a serial device is present. -/
theorem flush_writes_zero_on_zero_wire :
    initState.current_code = 0 ∧
    loopIter SYNC_TIME true (fun _ => 0) 1 0 initState [Task.num 0]
      = some (StepResult.next ⟨[⟨some 0, 0⟩], 0⟩
          [SinkEvent.write 0, SinkEvent.flushDevice, SinkEvent.sleep SYNC_TIME], []) ∧
    SinkEvent.write initState.current_code
      ∈ [SinkEvent.write 0, SinkEvent.flushDevice, SinkEvent.sleep SYNC_TIME] := by
  refine ⟨rfl, ?_, ?_⟩
  · simp [loopIter, acquireTask, runStep, flush, drainFrom, update_codes, get_code,
      send_code, initState]
  · simp [initState]

/-- Claim C3 (amended): outside the flush path — i.e. on an iteration with
no task or with a nonzero-code task — a write is issued only when the
newly merged value differs from the last written value: every write event
of such an iteration carries a byte different from `current_code`.  The
flush path itself (zero-reset, quit, startup) writes 0 unconditionally
whenever a serial device is present, even if the wire already carries 0. -/
theorem dispatch_write_only_on_change (sync : ℚ) (hasSer : Bool) (clock : ℕ → ℚ)
    (fuel : ℕ) (now : ℚ) (task : Option Task) (s : WorkerState)
    (h : task = none ∨ ∃ n, n ≠ 0 ∧ task = some (Task.num n))
    (s2 : WorkerState) (evs : List SinkEvent)
    (hstep : runStep sync hasSer clock fuel now task s = StepResult.next s2 evs)
    (b : Nat) (hb : SinkEvent.write b ∈ evs) :
    b ≠ s.current_code := by
  rcases runStep_nonflush_events sync hasSer clock fuel now task s h s2 evs hstep with
    hevs | ⟨nc, hnc, hevs⟩
  · rw [hevs] at hb
    simp at hb
  · rw [hevs] at hb
    cases hasSer <;> simp [send_code] at hb
    rw [hb]
    exact hnc

/-- Witness for the amended C3 theorem at a concrete input: sending code 5
from the idle state issues a write of 5, and the theorem yields 5 ≠ 0. -/
theorem dispatch_write_only_on_change_witness : (5 : Nat) ≠ initState.current_code :=
  dispatch_write_only_on_change SYNC_TIME true (fun _ => 0) 1 0
    (some (Task.num 5)) initState (Or.inr ⟨5, by simp, rfl⟩)
    ⟨[⟨some 0, 5⟩], 5⟩ [SinkEvent.write 5, SinkEvent.flushDevice]
    (by simp [runStep, flush, drainFrom, update_codes, get_code, send_code, initState])
    5 (by simp)

/-- Claim C4 counterexample: in emulate mode (no physical sink) the flush
sequence emits nothing at all — no zero write, no device flush and no
settle-time hold — refuting the claim that the write-0-and-hold step
happens whether or not a sink is present. -/
theorem emulate_flush_no_write :
    (flush SYNC_TIME false (fun _ => 0) 1 []).2 = [] ∧
    ([] : List SinkEvent)
      ≠ [SinkEvent.write 0, SinkEvent.flushDevice, SinkEvent.sleep SYNC_TIME] := by
  exact ⟨rfl, by simp⟩

/-- Claim C4 (amended): with a physical sink present, processing a
zero-reset runs the flush sequence: the active set is repeatedly expired
until empty — under a schedule in which every stamped code has been held
at least the settle time (`hstamp`/`hclock`) — and then 0 is written,
the device flushed and the settle time slept.  Without a sink (emulate
mode) the drain still happens but nothing is emitted and there is no
hold (`emulate_flush_no_write`). -/
theorem flush_drains_then_writes_zero (sync : ℚ) (clock : ℕ → ℚ) (cs : List BitSet)
    (hstamp : ∀ i ∈ cs, ∀ t, i.time_started = some t → t ≤ clock 0)
    (hclock : clock 0 + sync ≤ clock 1) :
    flush sync true clock 2 cs
      = ([], [SinkEvent.write 0, SinkEvent.flushDevice, SinkEvent.sleep sync]) := by
  have e1 : drainFrom sync clock 0 2 cs
      = if cs = [] then []
        else drainFrom sync clock 1 1 (update_codes sync (clock 0) cs) := rfl
  have e2 : ∀ xs : List BitSet, drainFrom sync clock 1 1 xs
      = if xs = [] then []
        else update_codes sync (clock 1) xs := by
    intro xs
    rfl
  have hdrain : drainFrom sync clock 0 2 cs = [] := by
    by_cases hcs : cs = []
    · rw [e1, if_pos hcs]
    · have h1 := update_codes_stamped sync (clock 0) cs hstamp
      have h2 : update_codes sync (clock 1) (update_codes sync (clock 0) cs) = [] :=
        update_codes_expires_all sync (clock 0) (clock 1) _ h1 hclock
      rw [e1, if_neg hcs, e2]
      by_cases hcs1 : update_codes sync (clock 0) cs = []
      · rw [if_pos hcs1]
      · rw [if_neg hcs1, h2]
  simp [flush, hdrain]

/-- Witness for the amended C4 theorem at a concrete input: one code
stamped at time 0, schedule visiting times 0 and `SYNC_TIME`. -/
theorem flush_drains_then_writes_zero_witness :
    flush SYNC_TIME true (fun k => (k : ℚ) / 100) 2 [⟨some 0, 3⟩]
      = ([], [SinkEvent.write 0, SinkEvent.flushDevice, SinkEvent.sleep SYNC_TIME]) := by
  apply flush_drains_then_writes_zero
  · intro i hi t ht
    simp at hi
    rw [hi] at ht
    simp at ht
    rw [← ht]
    norm_num
  · norm_num [SYNC_TIME]

/-- Claim C5: sending code 0 via `send_portcode` and calling `clear` are
equivalent: both enqueue the integer-0 task with the same `put_nowait`
and the same queue-full behaviour, and when the worker processes the 0
task (with a sink present and the flush drain completing) it performs the
flush-to-zero — a write of 0 occurs — after which the merged value of the
resulting active set is 0 and the stored wire value is 0. -/
theorem send_zero_equiv_clear (hasSer : Bool) (q : List Task) :
    (∀ qq : List Task,
      send_portcode hasSer q 0 = SendOutcome.ok qq ↔ clear q = some qq) ∧
    (send_portcode hasSer q 0 = SendOutcome.queueFull false ↔ clear q = none) ∧
    (∀ (sync now : ℚ) (clock : ℕ → ℚ) (fuel : ℕ) (s : WorkerState),
      drainFrom sync clock 0 fuel s.current_codes = [] →
      ∃ evs, runStep sync true clock fuel now (some (Task.num 0)) s
          = StepResult.next ⟨[⟨some now, 0⟩], 0⟩ evs ∧
        SinkEvent.write 0 ∈ evs ∧ get_code [⟨some now, 0⟩] = 0) := by
  have h0 : pyInt 0 = 0 := by simpa using pyInt_intCast 0
  have hok : (0 ≤ (0 : ℤ) ∧ (0 : ℤ) ≤ 255) := by norm_num
  refine ⟨?_, ?_, ?_⟩
  · intro qq
    cases hput : put_nowait q (Task.num 0) <;>
      simp [send_portcode, clear, h0, hput, hok]
  · cases hput : put_nowait q (Task.num 0) <;>
      simp [send_portcode, clear, h0, hput, hok]
  · intro sync now clock fuel s hdrain
    have hfl : flush sync true clock fuel s.current_codes
        = ([], [SinkEvent.write 0, SinkEvent.flushDevice, SinkEvent.sleep sync]) := by
      simp [flush, hdrain]
    by_cases hc : s.current_code = 0
    · refine ⟨[SinkEvent.write 0, SinkEvent.flushDevice, SinkEvent.sleep sync],
        ?_, by simp, by simp [get_code]⟩
      simp [runStep, hfl, update_codes, get_code, hc]
    · have hc2 : ¬ (0 : Nat) = s.current_code := fun hh => hc hh.symm
      refine ⟨[SinkEvent.write 0, SinkEvent.flushDevice, SinkEvent.sleep sync]
          ++ send_code true 0, ?_, by simp, by simp [get_code]⟩
      simp [runStep, hfl, update_codes, get_code, send_code, hc2]

/-- Witness for the C5 theorem at a concrete input: empty queue and the
idle worker state. -/
theorem send_zero_equiv_clear_witness :
    (send_portcode true [] 0 = SendOutcome.ok [Task.num 0]
      ↔ clear [] = some [Task.num 0]) ∧
    ∃ evs, runStep SYNC_TIME true (fun _ => 0) 1 0 (some (Task.num 0)) initState
        = StepResult.next ⟨[⟨some 0, 0⟩], 0⟩ evs ∧
      SinkEvent.write 0 ∈ evs ∧ get_code [⟨some 0, 0⟩] = 0 :=
  ⟨(send_zero_equiv_clear true []).1 [Task.num 0],
   (send_zero_equiv_clear true []).2.2 SYNC_TIME 0 (fun _ => 0) 1 initState
     (by exact drainFrom_nil SYNC_TIME (fun _ => 0) 0 1)⟩

/-- Claim C6 counterexample: with a full queue, `send_portcode` of the
out-of-range value 300 does not fail with the range error: the
`put_nowait` inside `close` raises `queue.Full` first, so the caller sees
a queue-full error, the worker is never joined and the device is not
released — the handle is not closed. -/
theorem send_out_of_range_full_queue :
    send_portcode true fullQueue 300 = SendOutcome.queueFull true ∧
    (close true fullQueue).workerJoined = false ∧
    (close true fullQueue).serReleased = false := by
  refine ⟨?_, rfl, rfl⟩
  have h300 : pyInt (300 : ℚ) = 300 := by simpa using pyInt_intCast 300
  have hfull : close true fullQueue = ⟨true, false, false, false, fullQueue⟩ := rfl
  norm_num [send_portcode, h300, hfull]

/-- Claim C6 (amended): provided the queue is not full, an out-of-range
code makes `send_portcode` force a complete close (quit enqueued, worker
joined, device released) and then fail with the range error, while an
in-range code is enqueued with no range error.  With a full queue the
queue-full error preempts both behaviours (see the counterexample). -/
theorem send_range_check (hasSer : Bool) (q : List Task) (x : ℚ)
    (hq : q.length < maxsize) :
    (¬ (0 ≤ pyInt x ∧ pyInt x ≤ 255) →
      send_portcode hasSer q x
        = SendOutcome.rangeError ⟨false, true, true, hasSer, q ++ [Task.quit]⟩) ∧
    ((0 ≤ pyInt x ∧ pyInt x ≤ 255) →
      send_portcode hasSer q x = SendOutcome.ok (q ++ [Task.num (pyInt x).toNat])) := by
  constructor
  · intro hrange
    simp [send_portcode, hrange, close, put_nowait, hq]
  · intro hrange
    simp [send_portcode, hrange.1, hrange.2, put_nowait, hq]

/-- Witness for the amended C6 theorem at concrete inputs 300 and 7 on an
empty queue. -/
theorem send_range_check_witness :
    send_portcode true [] ((300 : ℤ) : ℚ)
        = SendOutcome.rangeError ⟨false, true, true, true, [Task.quit]⟩ ∧
    send_portcode true [] ((7 : ℤ) : ℚ) = SendOutcome.ok [Task.num 7] := by
  constructor
  · have h := (send_range_check true [] ((300 : ℤ) : ℚ) (by decide)).1
      (by rw [pyInt_intCast]; decide)
    simpa using h
  · have h := (send_range_check true [] ((7 : ℤ) : ℚ) (by decide)).2
      (by rw [pyInt_intCast]; decide)
    simpa [pyInt_intCast] using h

/-- Claim C7: the request queue is bounded with capacity `maxsize = 10`
fixed at construction, and enqueueing never blocks: below capacity
`put_nowait` appends the task, at capacity it fails immediately with the
queue-full error, and both `clear` and an in-range `send_portcode`
surface that error to the caller. -/
theorem queue_bounded_nonblocking (q : List Task) (t : Task) :
    maxsize = 10 ∧
    (q.length < maxsize → put_nowait q t = some (q ++ [t])) ∧
    (maxsize ≤ q.length → put_nowait q t = none) ∧
    (maxsize ≤ q.length → clear q = none) ∧
    (∀ (hasSer : Bool) (x : ℚ), maxsize ≤ q.length →
      0 ≤ pyInt x → pyInt x ≤ 255 →
      send_portcode hasSer q x = SendOutcome.queueFull false) := by
  refine ⟨rfl, ?_, ?_, ?_, ?_⟩
  · intro h
    simp [put_nowait, h]
  · intro h
    simp [put_nowait, Nat.not_lt.mpr h]
  · intro h
    simp [clear, put_nowait, Nat.not_lt.mpr h]
  · intro hasSer x h h0 h255
    simp [send_portcode, h0, h255, put_nowait, Nat.not_lt.mpr h]

/-- Witness for the C7 theorem on a queue at capacity. -/
theorem queue_bounded_nonblocking_witness :
    put_nowait fullQueue (Task.num 1) = none ∧
    clear fullQueue = none ∧
    send_portcode true fullQueue ((7 : ℤ) : ℚ) = SendOutcome.queueFull false := by
  refine ⟨?_, ?_, ?_⟩
  · exact (queue_bounded_nonblocking fullQueue (Task.num 1)).2.2.1 (by decide)
  · exact (queue_bounded_nonblocking fullQueue (Task.num 1)).2.2.2.1 (by decide)
  · exact (queue_bounded_nonblocking fullQueue (Task.num 1)).2.2.2.2 true
      ((7 : ℤ) : ℚ) (by decide) (by rw [pyInt_intCast]; decide)
      (by rw [pyInt_intCast]; decide)

/-- Claim C8: the worker performs the blocking `queue.get` exactly when
the active set is empty; with a non-empty active set it only polls
non-blockingly (emptiness check plus `get_nowait`), obtaining no task
when the queue is empty, and the iteration still runs `update_codes`, so
expiry of active codes proceeds with no new task. -/
theorem polling_policy (cs : List BitSet) (q : List Task) :
    (usesBlockingGet cs = true ↔ cs = []) ∧
    (acquireTask cs q = none ↔ (cs = [] ∧ q = [])) ∧
    (cs ≠ [] →
      acquireTask cs q
        = some (match q with | [] => (none, []) | t :: ts => (some t, ts))) ∧
    (∀ (sync : ℚ) (hasSer : Bool) (clock : ℕ → ℚ) (fuel : ℕ) (now : ℚ) (cur : Nat),
      cs ≠ [] → q = [] →
      loopIter sync hasSer clock fuel now ⟨cs, cur⟩ q
        = some (runStep sync hasSer clock fuel now none ⟨cs, cur⟩, [])) ∧
    (∀ (sync : ℚ) (hasSer : Bool) (clock : ℕ → ℚ) (fuel : ℕ) (now : ℚ) (cur : Nat),
      ∃ c2 evs, runStep sync hasSer clock fuel now none ⟨cs, cur⟩
          = StepResult.next ⟨update_codes sync now cs, c2⟩ evs) := by
  refine ⟨?_, ?_, ?_, ?_, ?_⟩
  · simp [usesBlockingGet, List.length_eq_zero]
  · cases cs <;> cases q <;> simp [acquireTask]
  · intro h
    cases cs with
    | nil => exact absurd rfl h
    | cons a as => cases q <;> simp [acquireTask]
  · intro sync hasSer clock fuel now cur h hq
    subst hq
    cases cs with
    | nil => exact absurd rfl h
    | cons a as => simp [loopIter, acquireTask]
  · intro sync hasSer clock fuel now cur
    by_cases h : get_code cs ≠ cur
    · exact ⟨get_code cs, send_code hasSer (get_code cs), by simp [runStep, h]⟩
    · exact ⟨cur, [], by simp [runStep, h]⟩

/-- Witness for the C8 theorem with one active code and an empty queue. -/
theorem polling_policy_witness :
    acquireTask [⟨some 0, 1⟩] [] = some (none, []) ∧
    loopIter SYNC_TIME true (fun _ => 0) 1 0 ⟨[⟨some 0, 1⟩], 1⟩ []
      = some (runStep SYNC_TIME true (fun _ => 0) 1 0 none ⟨[⟨some 0, 1⟩], 1⟩, []) := by
  constructor
  · exact (polling_policy [⟨some 0, 1⟩] []).2.2.1 (by simp)
  · exact (polling_policy [⟨some 0, 1⟩] []).2.2.2.1 SYNC_TIME true (fun _ => 0) 1 0 1
      (by simp) rfl

/-- Claim C9: `send_portcode` applies Python `int()` — truncation toward
zero, `pyInt` — before the range check, so the truncated integer is what
is validated and enqueued: the behaviour on any numeric argument equals
the behaviour on its truncation, and `send(255.9)` enqueues 255 without
error. -/
theorem send_truncates_with_int (hasSer : Bool) (q : List Task) :
    (∀ x : ℚ, send_portcode hasSer q x = send_portcode hasSer q ((pyInt x : ℤ) : ℚ)) ∧
    (q.length < maxsize →
      send_portcode hasSer q ((2559 : ℚ) / 10) = SendOutcome.ok (q ++ [Task.num 255])) := by
  constructor
  · intro x
    simp [send_portcode, pyInt_intCast]
  · intro hq
    have h255 : pyInt ((2559 : ℚ) / 10) = 255 := by
      unfold pyInt
      rw [if_pos (by norm_num), Int.floor_eq_iff]
      norm_num
    have htn : (255 : ℤ).toNat = 255 := rfl
    norm_num [send_portcode, h255, put_nowait, hq, htn]

/-- Witness for the C9 theorem: sending 255.9 on an empty queue enqueues
the integer 255. -/
theorem send_truncates_with_int_witness :
    send_portcode true [] ((2559 : ℚ) / 10) = SendOutcome.ok [Task.num 255] := by
  have h := (send_truncates_with_int true []).2 (by decide)
  simpa using h

/-- Claim C10: `close` enqueues the quit task with the non-blocking
`put_nowait`; on a full queue that raises the queue-full error before the
worker is joined, so the worker is not terminated and the serial device
is not released. -/
theorem close_full_queue_raises (hasSer : Bool) (q : List Task)
    (h : maxsize ≤ q.length) :
    close hasSer q = ⟨true, false, false, false, q⟩ := by
  simp [close, put_nowait, Nat.not_lt.mpr h]

/-- Witness for the C10 theorem on a queue at capacity. -/
theorem close_full_queue_raises_witness :
    close true fullQueue = ⟨true, false, false, false, fullQueue⟩ :=
  close_full_queue_raises true fullQueue (by decide)

end Portcode
